import Mathlib

/-!
Verification development for the Dataset-Previewer repository
(`src/kpi_analyzer.py`, `src/data_agent.py`).

The Python code is shallowly embedded: pandas Series/DataFrame values become
Lean lists (missing values are `Option.none`), Python floats become `ℚ`
(float rounding in `f"{v:,.2f}"` is modelled as round-half-to-even on `ℚ`),
and the in-place / copying behaviour of pandas primitives is modelled by an
explicit heap of allocated frames where the frame-effect claims need it.
-/

namespace DatasetPreviewer

/- Batteries marks the core `Rat` arithmetic irreducible; restore reducibility
so that concrete evaluations go through `decide`. -/
attribute [local semireducible] Rat.mul Rat.inv Rat.add Rat.sub Rat.ofScientific

/-! ### Decimal digit rendering

Helpers for the semantics of Python `f"{value:,.Nf}"` / `f"{value:.N%}"`
format strings, used by `_format_number` and `_format_percent` in
`src/kpi_analyzer.py`.  `natDigitsAux` is fuel-based so that the kernel can
evaluate it on literals. -/

def natDigitsAux : ℕ → ℕ → List ℕ
  | 0, _ => []
  | _, 0 => []
  | f + 1, n => (n % 10) :: natDigitsAux f (n / 10)

/-- Base-10 digits of `n`, least significant first (`[]` for `0`). -/
def natDigitsLSB (n : ℕ) : List ℕ :=
  natDigitsAux n n

/-- Digit characters of `n`, least significant first; `0` renders as `['0']`. -/
def lsbChars (n : ℕ) : List Char :=
  if n = 0 then ['0'] else (natDigitsLSB n).map Nat.digitChar

/-- Insert a `','` thousands separator after every three characters of a
least-significant-first digit list, as the Python `","` format option does. -/
def group3 : List Char → List Char
  | a :: b :: c :: d :: rest => a :: b :: c :: ',' :: group3 (d :: rest)
  | l => l

/-- The integer part with thousands separators, most significant first. -/
def groupedIntChars (n : ℕ) : List Char :=
  (group3 (lsbChars n)).reverse

/-- The integer part without separators, most significant first. -/
def plainIntChars (n : ℕ) : List Char :=
  (lsbChars n).reverse

/-- The fractional part of a fixed-point rendering: `fp` printed in exactly
`d` digits with leading zeros (callers guarantee `fp < 10 ^ d`). -/
def fracChars (fp d : ℕ) : List Char :=
  List.replicate (d - (natDigitsLSB fp).length) '0'
    ++ ((natDigitsLSB fp).map Nat.digitChar).reverse

/-- Round-half-to-even, the rounding mode used by Python fixed-point float
formatting (modelled on `ℚ`). -/
def roundHalfEven (q : ℚ) : ℤ :=
  let f := ⌊q⌋
  if q - f < 1 / 2 then f
  else if 1 / 2 < q - f then f + 1
  else if 2 ∣ f then f else f + 1

/-- The character list produced by Python `f"{q:,.df}"` (when `grouped`) or
`f"{q:.df}"` (otherwise). -/
def formatFixedChars (grouped : Bool) (q : ℚ) (d : ℕ) : List Char :=
  let m : ℕ := (roundHalfEven (|q| * 10 ^ d)).toNat
  let ip := m / 10 ^ d
  let fp := m % 10 ^ d
  (if q < 0 then ['-'] else [])
    ++ (if grouped then groupedIntChars ip else plainIntChars ip)
    ++ (if d = 0 then [] else '.' :: fracChars fp d)

/-- Python `str.replace` for a single-character pattern. -/
def pyReplaceChar (s : List Char) (c c' : Char) : List Char :=
  s.map fun x => if x = c then c' else x

/-- The narrow no-break space used as thousands separator. -/
def nnbsp : Char := '\u202F'

/-- `_format_number` (src/kpi_analyzer.py:24-33).  A pandas-missing value is
`none` and renders as `"N/A"`. -/
def formatNumber (value : Option ℚ) (decimals : ℕ := 2) : String :=
  match value with
  | none => "N/A"
  | some v =>
    let formatted :=
      if 100 ≤ |v| then formatFixedChars true v 0
      else formatFixedChars true v decimals
    ⟨pyReplaceChar formatted ',' nnbsp⟩

/-- `_format_percent` (src/kpi_analyzer.py:36-39), Python `f"{v:.d%}"`. -/
def formatPercent (value : Option ℚ) (decimals : ℕ := 1) : String :=
  match value with
  | none => "N/A"
  | some v => String.mk (formatFixedChars false (v * 100) decimals) ++ "%"

/-! ### Typed tables

The typed table handed to the core by the loader: an ordered list of named,
typed columns over a shared row index.  Missing entries are `none`.
Datetime values are modelled at day granularity (days since 1970-01-01);
`suggest` only ever compares them and prints the `%Y-%m-%d` date part. -/

inductive ColData where
  | numeric (vals : List (Option ℚ))
  | categorical (vals : List (Option String))
  | datetime (vals : List (Option ℤ))
deriving DecidableEq

def ColData.size : ColData → ℕ
  | .numeric v => v.length
  | .categorical v => v.length
  | .datetime v => v.length

structure Table where
  nRows : ℕ
  cols : List (String × ColData)
deriving DecidableEq

def Table.nCols (t : Table) : ℕ := t.cols.length

/-- The data-model invariant: all columns share the row count, and column
names are unique. -/
def Table.WF (t : Table) : Prop :=
  (∀ c ∈ t.cols, c.2.size = t.nRows) ∧ (t.cols.map Prod.fst).Nodup

instance (t : Table) : Decidable t.WF :=
  inferInstanceAs
    (Decidable ((∀ c ∈ t.cols, c.2.size = t.nRows) ∧ (t.cols.map Prod.fst).Nodup))

/-- `df.select_dtypes(include=["number"])`, keeping column order. -/
def numericCols (t : Table) : List (String × List (Option ℚ)) :=
  t.cols.filterMap fun c =>
    match c.2 with
    | .numeric v => some (c.1, v)
    | _ => none

/-- `df.select_dtypes(include=["object", "category"])`. -/
def categoricalCols (t : Table) : List (String × List (Option String)) :=
  t.cols.filterMap fun c =>
    match c.2 with
    | .categorical v => some (c.1, v)
    | _ => none

/-- `df.select_dtypes(include=["datetime64[ns]", "datetimetz"])`. -/
def datetimeCols (t : Table) : List (String × List (Option ℤ)) :=
  t.cols.filterMap fun c =>
    match c.2 with
    | .datetime v => some (c.1, v)
    | _ => none

/-! ### KPI data model (src/kpi_analyzer.py:9-21) -/

structure KPIMetric where
  label : String
  value : String
  column : Option String
  description : String
deriving DecidableEq

structure KPIDetail where
  title : String
  dataframe : List (String × ℕ)
  description : Option String
deriving DecidableEq

/-! ### String helpers: Python `str.lower` and the `in` substring test -/

def strLower (s : String) : String :=
  String.mk (s.toList.map Char.toLower)

def startsList : List Char → List Char → Bool
  | [], _ => true
  | _ :: _, [] => false
  | a :: as, b :: bs => a == b && startsList as bs

def occursList (pat : List Char) : List Char → Bool
  | [] => pat.isEmpty
  | c :: cs => startsList pat (c :: cs) || occursList pat cs

/-- Python `pat in hay` on strings. -/
def strContains (hay pat : String) : Bool :=
  occursList pat.toList hay.toList

/-- Left-to-right, non-overlapping substring replacement on char lists; the
fuel argument (instantiated with the input length) makes it kernel-evaluable. -/
def replaceSubAux (pat rep : List Char) : ℕ → List Char → List Char
  | 0, _ => []
  | _, [] => []
  | f + 1, c :: cs =>
    if startsList pat (c :: cs) && !pat.isEmpty then
      rep ++ replaceSubAux pat rep f (cs.drop (pat.length - 1))
    else c :: replaceSubAux pat rep f cs

/-- Python `s.replace(pat, rep)` for non-empty `pat`; also models
`template.format(column=col)` for the rule descriptions, whose only
placeholder is `{column}`. -/
def pyReplace (s pat rep : String) : String :=
  String.mk (replaceSubAux pat.toList rep.toList s.toList.length s.toList)

/-! ### Aggregations (pandas `Series.sum` / `Series.mean` on a non-empty,
NaN-dropped series) -/

def seriesSum (l : List ℚ) : ℚ := l.sum

def seriesMean (l : List ℚ) : ℚ := l.sum / (l.length : ℚ)

/-! ### Numeric keyword rules (src/kpi_analyzer.py:94-150) -/

structure NumRule where
  keywords : List String
  label : String
  agg : List ℚ → ℚ
  description : String
  formatter : Option (Option ℚ → String) := none

def numericRules : List NumRule :=
  [ { keywords := ["revenue", "revenu", "sales", "vente", "turnover", "income", "ca"]
      label := "Revenu total"
      agg := seriesSum
      description := "Somme totale des montants de la colonne {column}." },
    { keywords := ["profit", "benef", "margin"]
      label := "Profit total"
      agg := seriesSum
      description := "Bénéfice cumulé calculé sur la colonne {column}." },
    { keywords := ["cost", "cout", "expense", "depense"]
      label := "Coût total"
      agg := seriesSum
      description := "Somme totale des coûts basés sur {column}." },
    { keywords := ["price", "prix", "tarif", "amount", "montant"]
      label := "Valeur moyenne"
      agg := seriesMean
      description := "Valeur moyenne observée dans la colonne {column}." },
    { keywords := ["quantity", "quantite", "qty", "volume"]
      label := "Quantité totale"
      agg := seriesSum
      description := "Volume total agrégé pour la colonne {column}." },
    { keywords := ["rate", "taux", "ratio", "pourcentage"]
      label := "Taux moyen"
      agg := seriesMean
      description := "Taux moyen calculé pour la colonne {column}."
      formatter := some fun v => formatPercent v 1 },
    { keywords := ["score", "note", "evaluation"]
      label := "Score moyen"
      agg := seriesMean
      description := "Score moyen observé dans la colonne {column}." },
    { keywords := ["age"]
      label := "Âge moyen"
      agg := seriesMean
      description := "Âge moyen calculé sur la colonne {column}." },
    { keywords := ["duree", "duration", "temps", "time"]
      label := "Durée moyenne"
      agg := seriesMean
      description := "Durée moyenne mesurée dans la colonne {column}." } ]

def ruleMatches (colLower : String) (kws : List String) : Bool :=
  kws.any fun k => strContains colLower k

/-- The body of the per-column loop of `_numeric_keyword_metrics`
(src/kpi_analyzer.py:153-190): first matching rule wins, otherwise two
generic fallback metrics. -/
def numericColMetrics (name : String) (vals : List (Option ℚ)) : List KPIMetric :=
  let series := vals.filterMap id
  if series.isEmpty then []
  else
    let colLower := strLower name
    match numericRules.find? (fun r => ruleMatches colLower r.keywords) with
    | some rule =>
      let fmt := rule.formatter.getD fun v => formatNumber v 2
      [{ label := rule.label ++ " (" ++ name ++ ")"
         value := fmt (some (rule.agg series))
         column := some name
         description := pyReplace rule.description "{column}" name }]
    | none =>
      [{ label := "Moyenne (" ++ name ++ ")"
         value := formatNumber (some (seriesMean series)) 2
         column := some name
         description := "Valeur moyenne observée pour " ++ name ++ "." },
       { label := "Somme (" ++ name ++ ")"
         value := formatNumber (some (seriesSum series)) 2
         column := some name
         description := "Somme totale des valeurs de " ++ name ++ "." }]

/-- `_numeric_keyword_metrics` (src/kpi_analyzer.py:90-191).  A pandas
DataFrame is `.empty` iff it has zero rows or zero columns. -/
def numericKeywordMetrics (t : Table) : List KPIMetric :=
  if t.nRows = 0 ∨ numericCols t = [] then []
  else (numericCols t).flatMap fun c => numericColMetrics c.1 c.2

/-! ### Categorical keyword rules (src/kpi_analyzer.py:193-232) -/

structure CatRule where
  keywords : List String
  label : String
  description : String

def categoricalRules : List CatRule :=
  [ { keywords := ["client", "customer", "user", "utilisateur", "compte"]
      label := "Clients uniques"
      description := "Nombre de clients/identifiants uniques présents dans {column}." },
    { keywords := ["produit", "product", "item", "article"]
      label := "Produits uniques"
      description := "Nombre de produits distincts présents dans {column}." },
    { keywords := ["ville", "city", "pays", "country", "region"]
      label := "Localisations uniques"
      description := "Nombre d\u0027emplacements distincts détectés dans {column}." } ]

def categoricalColMetrics (name : String) (vals : List (Option String)) :
    List KPIMetric :=
  let series := vals.filterMap id
  if series.isEmpty then []
  else
    let colLower := strLower name
    match categoricalRules.find? (fun r => ruleMatches colLower r.keywords) with
    | some rule =>
      [{ label := rule.label ++ " (" ++ name ++ ")"
         value := formatNumber (some (series.dedup.length : ℚ)) 0
         column := some name
         description := pyReplace rule.description "{column}" name }]
    | none => []

def categoricalMetrics (t : Table) : List KPIMetric :=
  if t.nRows = 0 ∨ categoricalCols t = [] then []
  else (categoricalCols t).flatMap fun c => categoricalColMetrics c.1 c.2

/-! ### Datetime metrics (src/kpi_analyzer.py:234-260)

`pd.Timestamp.strftime("%Y-%m-%d")` is modelled by converting a day count to
a civil date (Gregorian calendar, days since 1970-01-01). -/

def civilFromDays (z0 : ℤ) : ℤ × ℕ × ℕ :=
  let z := z0 + 719468
  let era : ℤ := (if 0 ≤ z then z else z - 146096) / 146097
  let doe : ℕ := (z - era * 146097).toNat
  let yoe : ℕ := (doe - doe / 1460 + doe / 36524 - doe / 146096) / 365
  let doy : ℕ := doe - (365 * yoe + yoe / 4 - yoe / 100)
  let mp : ℕ := (5 * doy + 2) / 153
  let d : ℕ := doy - (153 * mp + 2) / 5 + 1
  let m : ℕ := if mp < 10 then mp + 3 else mp - 9
  ((yoe : ℤ) + era * 400 + (if m ≤ 2 then 1 else 0), m, d)

def pad2 (n : ℕ) : String :=
  if n < 10 then "0" ++ Nat.repr n else Nat.repr n

def pad4 (z : ℤ) : String :=
  if z < 0 then "-" ++ Nat.repr z.natAbs
  else
    let s := Nat.repr z.toNat
    String.mk (List.replicate (4 - s.length) '0') ++ s

/-- strftime `"%Y-%m-%d"` of a day count. -/
def dateStr (days : ℤ) : String :=
  let c := civilFromDays days
  pad4 c.1 ++ "-" ++ pad2 c.2.1 ++ "-" ++ pad2 c.2.2

def datetimeColMetrics (name : String) (vals : List (Option ℤ)) : List KPIMetric :=
  match vals.filterMap id with
  | [] => []
  | x :: xs =>
    [{ label := "Date la plus récente (" ++ name ++ ")"
       value := dateStr (xs.foldl max x)
       column := some name
       description := "Dernière date disponible dans " ++ name ++ "." },
     { label := "Date la plus ancienne (" ++ name ++ ")"
       value := dateStr (xs.foldl min x)
       column := some name
       description := "Première date disponible dans " ++ name ++ "." }]

def datetimeMetrics (t : Table) : List KPIMetric :=
  (datetimeCols t).flatMap fun c => datetimeColMetrics c.1 c.2

/-! ### Base metrics, detail tables, deduplication, suggest
(src/kpi_analyzer.py:50-88 and 262-282) -/

def baseMetrics (t : Table) : List KPIMetric :=
  [ { label := "Lignes disponibles"
      value := formatNumber (some (t.nRows : ℚ)) 0
      column := none
      description := "Nombre total d\u0027enregistrements dans le fichier." },
    { label := "Colonnes disponibles"
      value := formatNumber (some (t.nCols : ℚ)) 0
      column := none
      description := "Nombre total de colonnes détectées." } ]

/-- pandas `Series.value_counts().reset_index()` with the `Occurrences`
column cast to `int`: one row per distinct value with its occurrence count,
sorted by descending count. -/
def valueCounts (l : List String) : List (String × ℕ) :=
  (l.dedup.map fun v => (v, l.count v)).mergeSort fun a b => decide (b.2 ≤ a.2)

/-- The body of the per-column loop of `_top_categories_details`
(src/kpi_analyzer.py:267-281). -/
def categoricalColDetails (name : String) (vals : List (Option String)) :
    List KPIDetail :=
  if (vals.filterMap id).dedup.length = 0 ∨ (vals.filterMap id).dedup.length > 25 then
    []
  else
    [{ title := "Répartition de " ++ name
       dataframe := valueCounts (vals.filterMap id)
       description := some "Top catégories pour aider à identifier les segments dominants." }]

def topCategoriesDetails (t : Table) : List KPIDetail :=
  if t.nRows = 0 ∨ categoricalCols t = [] then []
  else (categoricalCols t).flatMap fun c => categoricalColDetails c.1 c.2

/-- Deduplication identity of a metric (src/kpi_analyzer.py:65). -/
def metricKey (m : KPIMetric) : String × Option String :=
  (m.label, m.column)

/-- The deduplication loop of `suggest` (src/kpi_analyzer.py:61-69). -/
def dedupMetrics : List KPIMetric → List (String × Option String) → List KPIMetric
  | [], _ => []
  | m :: rest, seen =>
    if metricKey m ∈ seen then dedupMetrics rest seen
    else m :: dedupMetrics rest (metricKey m :: seen)

/-- Stages 1-4 of `suggest`, concatenated in emission order. -/
def allMetrics (t : Table) : List KPIMetric :=
  baseMetrics t ++ numericKeywordMetrics t ++ categoricalMetrics t ++ datetimeMetrics t

/-- `KPIAnalyzer.suggest` (src/kpi_analyzer.py:50-71). -/
def suggest (t : Table) : List KPIMetric × List KPIDetail :=
  (dedupMetrics (allMetrics t) [], topCategoriesDetails t)

/-! ### DataExplorerAgent (src/data_agent.py)

The agent keeps only the numeric columns (`df.select_dtypes` with the number dtype).
The scikit-learn models are external collaborators: they enter the embedding
as explicit function parameters from the fitted (0-filled) data to one
prediction per row, the contract documented by scikit-learn for
`fit_predict`/`predict`. -/

/-- Row `i` of the numeric frame kept by the agent, with the original (NaN-preserving)
values. -/
def numRow (t : Table) (i : ℕ) : List (Option ℚ) :=
  (numericCols t).map fun c => c.2.getD i none

/-- The numeric rows after `fillna(0)`. -/
def filledRows (t : Table) : List (List ℚ) :=
  (List.range t.nRows).map fun i => (numRow t i).map fun o => o.getD 0

/-- `self.df.empty` for the numeric frame kept by the agent: a pandas DataFrame is
empty iff it has zero rows or zero columns. -/
def numericEmpty (t : Table) : Prop :=
  t.nRows = 0 ∨ numericCols t = []

instance (t : Table) : Decidable (numericEmpty t) :=
  inferInstanceAs (Decidable (_ ∨ _))

/-- The numeric rows paired with their original row index. -/
def indexedRows (t : Table) : List (ℕ × List (Option ℚ)) :=
  (List.range t.nRows).map fun i => (i, numRow t i)

/-- pandas boolean-mask row selection `df[mask]`. -/
def selectByMask {α : Type} : List α → List Bool → List α
  | [], _ => []
  | _, [] => []
  | x :: xs, b :: bs => if b then x :: selectByMask xs bs else selectByMask xs bs

/-- `DataExplorerAgent.detect_outliers` (src/data_agent.py:27-36).  `model`
maps the fitted (filled) data to a per-row anomaly flag (`true` stands for
the IsolationForest prediction `-1`); the `none` result models the error
pandas raises when a boolean mask has the wrong length. -/
def detectOutliers (model : List (List ℚ) → List Bool) (t : Table) :
    Option (List (ℕ × List (Option ℚ))) :=
  if numericEmpty t then some []
  else if (model (filledRows t)).length = t.nRows then
    some (selectByMask (indexedRows t) (model (filledRows t)))
  else none

/-- `DataExplorerAgent.cluster` (src/data_agent.py:38-45).  `kfit` maps the
fitted (filled) data to one integer label per row (`KMeans.fit_predict`);
`none` models the error `pd.Series(labels, index=...)` raises on a length
mismatch. -/
def cluster (kfit : List (List ℚ) → List ℤ) (t : Table) :
    Option (List (ℕ × ℤ)) :=
  if numericEmpty t then some []
  else if (kfit (filledRows t)).length = t.nRows then
    some ((List.range t.nRows).zip (kfit (filledRows t)))
  else none

/-- Pairwise-complete observations of two columns (pandas `DataFrame.corr`
drops a pair when either side is missing). -/
def pairComplete (xs ys : List (Option ℚ)) : List (ℚ × ℚ) :=
  (xs.zip ys).filterMap fun p =>
    match p with
    | (some a, some b) => some (a, b)
    | _ => none

/-- One entry of the Pearson correlation matrix of `DataFrame.corr`,
represented by the pair (n·Σxy − Σx·Σy, (n·Σx² − (Σx)²)·(n·Σy² − (Σy)²)):
the correlation is the first component divided by the square root of the
second, which is irrational in general; the embedding carries the rational
data that determines it, since no claim inspects the rendered heatmap. -/
def corrEntry (xs ys : List (Option ℚ)) : ℚ × ℚ :=
  let ps := pairComplete xs ys
  let n : ℚ := (ps.length : ℚ)
  let sx := (ps.map Prod.fst).sum
  let sy := (ps.map Prod.snd).sum
  let sxy := (ps.map fun p => p.1 * p.2).sum
  let sxx := (ps.map fun p => p.1 * p.1).sum
  let syy := (ps.map fun p => p.2 * p.2).sum
  (n * sxy - sx * sy, (n * sxx - sx * sx) * (n * syy - sy * sy))

/-- The data behind `self.df.corr()` in `correlation_heatmap`. -/
def corrData (cols : List (String × List (Option ℚ))) : List (List (ℚ × ℚ)) :=
  cols.map fun c => cols.map fun c' => corrEntry c.2 c'.2

/-! ### Heap model for the frame-effect claim

Python objects live on a heap; pandas `select_dtypes`, `fillna`,
`value_counts().reset_index()`, `corr` and boolean-mask selection return
freshly allocated objects, while `counts.columns = [...]` and
`counts["Occurrences"] = counts["Occurrences"].astype(int)` write in place
to the object they are applied to.  The heap is a list of allocated
objects, a reference is an index into it, and allocation appends; the four
core operations are re-run on this heap, threading every allocation and
in-place write performed by their source statements, and return the same
values as the pure embeddings above. -/

inductive PdObj where
  | tab (t : Table)
  | rowsObj (rows : List (ℕ × List (Option ℚ)))
  | labelsObj (ls : List (ℕ × ℤ))
  | corrTab (m : List (List (ℚ × ℚ)))

abbrev Heap := List PdObj

def hAlloc (h : Heap) (o : PdObj) : Heap × ℕ :=
  (h ++ [o], h.length)

def hGetTab (h : Heap) (r : ℕ) : Table :=
  match h.getD r (.tab ⟨0, []⟩) with
  | .tab t => t
  | _ => ⟨0, []⟩

/-- `df.select_dtypes(include=["number"])` as a fresh frame. -/
def restrictNumeric (t : Table) : Table :=
  ⟨t.nRows, t.cols.filter fun c =>
    match c.2 with
    | .numeric _ => true
    | _ => false⟩

/-- `df.select_dtypes(include=["object", "category"])` as a fresh frame. -/
def restrictCategorical (t : Table) : Table :=
  ⟨t.nRows, t.cols.filter fun c =>
    match c.2 with
    | .categorical _ => true
    | _ => false⟩

/-- `self.df.fillna(0)` as a fresh frame. -/
def filledTable (t : Table) : Table :=
  ⟨t.nRows, (numericCols t).map fun c =>
    (c.1, .numeric (c.2.map fun o => some (o.getD 0)))⟩

/-- `series.value_counts().reset_index()`: a fresh two-column frame. -/
def countsInitial (name : String) (series : List String) : Table :=
  ⟨(valueCounts series).length,
   [(name, .categorical ((valueCounts series).map fun p => some p.1)),
    ("count", .numeric ((valueCounts series).map fun p => some (p.2 : ℚ)))]⟩

/-- The counts frame after the in-place `counts.columns = [col, "Occurrences"]`. -/
def countsRenamed (name : String) (series : List String) : Table :=
  ⟨(valueCounts series).length,
   [(name, .categorical ((valueCounts series).map fun p => some p.1)),
    ("Occurrences", .numeric ((valueCounts series).map fun p => some (p.2 : ℚ)))]⟩

/-- The counts frame after the in-place integer cast of `Occurrences`
(already integral here, as in the source). -/
def countsFinal (name : String) (series : List String) : Table :=
  countsRenamed name series

/-- One iteration of the `_top_categories_details` loop on the heap
(src/kpi_analyzer.py:267-281): allocate the counts frame, then mutate it in
place twice (column rename, integer cast).  The writes target the
freshly-allocated reference. -/
def detailStep (hh : Heap) (c : String × List (Option String)) : Heap :=
  if (c.2.filterMap id).dedup.length = 0 ∨ (c.2.filterMap id).dedup.length > 25 then
    hh
  else
    (((hAlloc hh (.tab (countsInitial c.1 (c.2.filterMap id)))).1.set
        (hAlloc hh (.tab (countsInitial c.1 (c.2.filterMap id)))).2
        (.tab (countsRenamed c.1 (c.2.filterMap id)))).set
      (hAlloc hh (.tab (countsInitial c.1 (c.2.filterMap id)))).2
      (.tab (countsFinal c.1 (c.2.filterMap id))))

/-- The heap effects of `KPIAnalyzer.suggest`: the two `select_dtypes`
copies of the constructor (src/kpi_analyzer.py:45-48), then one counts frame
per emitted detail. -/
def suggestHeap (h : Heap) (df : Table) : Heap :=
  if df.nRows = 0 ∨ categoricalCols df = [] then
    (hAlloc (hAlloc h (.tab (restrictNumeric df))).1 (.tab (restrictCategorical df))).1
  else
    (categoricalCols df).foldl detailStep
      (hAlloc (hAlloc h (.tab (restrictNumeric df))).1
        (.tab (restrictCategorical df))).1

/-- `KPIAnalyzer.suggest` on the heap, returning the same value as the pure
embedding. -/
def suggestH (h : Heap) (r : ℕ) : Heap × (List KPIMetric × List KPIDetail) :=
  (suggestHeap h (hGetTab h r), suggest (hGetTab h r))

/-- The heap effects of `detect_outliers`: the numeric constructor copy,
then either the fresh empty `pd.DataFrame()` or the `fillna(0)` copy plus
the freshly selected outlier frame. -/
def detectOutliersHeap (model : List (List ℚ) → List Bool) (h : Heap)
    (df : Table) : Heap :=
  if numericEmpty df then
    (hAlloc (hAlloc h (.tab (restrictNumeric df))).1 (.tab ⟨0, []⟩)).1
  else
    (hAlloc
      (hAlloc (hAlloc h (.tab (restrictNumeric df))).1 (.tab (filledTable df))).1
      (.rowsObj (selectByMask (indexedRows df) (model (filledRows df))))).1

def detectOutliersH (model : List (List ℚ) → List Bool) (h : Heap) (r : ℕ) :
    Heap × Option (List (ℕ × List (Option ℚ))) :=
  (detectOutliersHeap model h (hGetTab h r), detectOutliers model (hGetTab h r))

/-- The heap effects of `cluster`: numeric copy, then the empty label series
or the `fillna(0)` copy plus the fresh label series. -/
def clusterHeap (kfit : List (List ℚ) → List ℤ) (h : Heap) (df : Table) : Heap :=
  if numericEmpty df then
    (hAlloc (hAlloc h (.tab (restrictNumeric df))).1 (.labelsObj [])).1
  else
    (hAlloc
      (hAlloc (hAlloc h (.tab (restrictNumeric df))).1 (.tab (filledTable df))).1
      (.labelsObj ((List.range df.nRows).zip (kfit (filledRows df))))).1

def clusterH (kfit : List (List ℚ) → List ℤ) (h : Heap) (r : ℕ) :
    Heap × Option (List (ℕ × ℤ)) :=
  (clusterHeap kfit h (hGetTab h r), cluster kfit (hGetTab h r))

/-- The heap effects of `correlation_heatmap`: numeric copy plus the fresh
correlation frame.  The matplotlib figure and the PNG buffer are external
I/O objects that never reference the table of the caller; the returned value is
the correlation data the image renders. -/
def corrHeatmapH (h : Heap) (r : ℕ) : Heap × List (List (ℚ × ℚ)) :=
  ((hAlloc (hAlloc h (.tab (restrictNumeric (hGetTab h r)))).1
      (.corrTab (corrData (numericCols (hGetTab h r))))).1,
   corrData (numericCols (hGetTab h r)))

/-- `h'` extends `h`: it is at least as long and agrees with `h` on every
reference already allocated in `h`.  All heap effects of the core
operations extend the input heap, hence never touch the table of the caller. -/
def HeapExtends (h h' : Heap) : Prop :=
  h.length ≤ h'.length ∧ ∀ r, r < h.length → h'[r]? = h[r]?

theorem heapExtends_trans {h h' h'' : Heap}
    (h1 : HeapExtends h h') (h2 : HeapExtends h' h'') : HeapExtends h h'' :=
  ⟨le_trans h1.1 h2.1,
   fun r hr => (h2.2 r (lt_of_lt_of_le hr h1.1)).trans (h1.2 r hr)⟩

theorem heapExtends_alloc (h : Heap) (o : PdObj) : HeapExtends h (hAlloc h o).1 :=
  ⟨by simp [hAlloc], fun r hr => List.getElem?_append_left hr⟩

theorem heapExtends_set_fresh {h h' : Heap} (i : ℕ) (o : PdObj)
    (hi : h.length ≤ i) (hext : HeapExtends h h') : HeapExtends h (h'.set i o) :=
  ⟨by rw [List.length_set]; exact hext.1,
   fun r hr =>
     (List.getElem?_set_ne (by omega)).trans (hext.2 r hr)⟩

theorem heapExtends_detailStep (hh : Heap) (c : String × List (Option String)) :
    HeapExtends hh (detailStep hh c) := by
  rw [detailStep]
  split
  · exact ⟨le_refl _, fun r _ => rfl⟩
  · refine heapExtends_set_fresh _ _ ?_ (heapExtends_set_fresh _ _ ?_ ?_)
    · exact le_refl _
    · exact le_refl _
    · exact heapExtends_alloc hh _

theorem heapExtends_foldl_detailStep :
    ∀ (cols : List (String × List (Option String))) (hh : Heap),
      HeapExtends hh (cols.foldl detailStep hh) := by
  intro cols
  induction cols with
  | nil => intro hh; exact ⟨le_refl _, fun r _ => rfl⟩
  | cons c rest ih =>
    intro hh
    rw [List.foldl_cons]
    exact heapExtends_trans (heapExtends_detailStep hh c) (ih (detailStep hh c))

theorem heapExtends_suggestHeap (h : Heap) (df : Table) :
    HeapExtends h (suggestHeap h df) := by
  rw [suggestHeap]
  split
  · exact heapExtends_trans (heapExtends_alloc h _) (heapExtends_alloc _ _)
  · exact heapExtends_trans
      (heapExtends_trans (heapExtends_alloc h _) (heapExtends_alloc _ _))
      (heapExtends_foldl_detailStep _ _)

theorem heapExtends_detectOutliersHeap (model : List (List ℚ) → List Bool)
    (h : Heap) (df : Table) : HeapExtends h (detectOutliersHeap model h df) := by
  rw [detectOutliersHeap]
  split
  · exact heapExtends_trans (heapExtends_alloc h _) (heapExtends_alloc _ _)
  · exact heapExtends_trans
      (heapExtends_trans (heapExtends_alloc h _) (heapExtends_alloc _ _))
      (heapExtends_alloc _ _)

theorem heapExtends_clusterHeap (kfit : List (List ℚ) → List ℤ)
    (h : Heap) (df : Table) : HeapExtends h (clusterHeap kfit h df) := by
  rw [clusterHeap]
  split
  · exact heapExtends_trans (heapExtends_alloc h _) (heapExtends_alloc _ _)
  · exact heapExtends_trans
      (heapExtends_trans (heapExtends_alloc h _) (heapExtends_alloc _ _))
      (heapExtends_alloc _ _)

/-! ### Concrete tables used by the claims -/

def salesTable : Table :=
  ⟨3, [("Sales_Amount", .numeric [some 100, some 200, some 300])]⟩

def convTable : Table :=
  ⟨3, [("conversion_rate", .numeric [some (1/10), some (2/10), some (3/10)])]⟩

def emptyTable : Table := ⟨0, []⟩

/-! ### Properties of the deduplication loop -/

theorem dedupMetrics_sublist :
    ∀ (l : List KPIMetric) (seen : List (String × Option String)),
      (dedupMetrics l seen).Sublist l := by
  intro l
  induction l with
  | nil => intro seen; simp [dedupMetrics]
  | cons m rest ih =>
    intro seen
    rw [dedupMetrics]
    split
    · exact (ih seen).cons m
    · exact (ih _).cons₂ m

theorem dedupMetrics_key_not_seen :
    ∀ (l : List KPIMetric) (seen : List (String × Option String)) (m : KPIMetric),
      m ∈ dedupMetrics l seen → metricKey m ∉ seen := by
  intro l
  induction l with
  | nil => intro seen m hm; simp [dedupMetrics] at hm
  | cons a rest ih =>
    intro seen m hm
    rw [dedupMetrics] at hm
    split at hm
    · exact ih seen m hm
    · rcases List.mem_cons.mp hm with h | h
      · subst h; assumption
      · intro hk
        exact ih _ m h (List.mem_cons_of_mem _ hk)

theorem dedupMetrics_nodup_keys :
    ∀ (l : List KPIMetric) (seen : List (String × Option String)),
      ((dedupMetrics l seen).map metricKey).Nodup := by
  intro l
  induction l with
  | nil => intro seen; simp [dedupMetrics]
  | cons a rest ih =>
    intro seen
    rw [dedupMetrics]
    split
    · exact ih seen
    · refine List.nodup_cons.mpr ⟨?_, ih _⟩
      intro hmem
      rcases List.mem_map.mp hmem with ⟨m, hm, hkey⟩
      exact dedupMetrics_key_not_seen rest _ m hm
        (by rw [hkey]; exact List.mem_cons_self _ _)

theorem dedupMetrics_find? :
    ∀ (l : List KPIMetric) (seen : List (String × Option String))
      (k : String × Option String), k ∉ seen →
      (dedupMetrics l seen).find? (fun m => decide (metricKey m = k)) =
        l.find? (fun m => decide (metricKey m = k)) := by
  intro l
  induction l with
  | nil => intro seen k _; simp [dedupMetrics]
  | cons a rest ih =>
    intro seen k hk
    rw [dedupMetrics]
    by_cases hak : metricKey a = k
    · have hnot : metricKey a ∉ seen := by rw [hak]; exact hk
      rw [if_neg hnot]
      simp [List.find?, hak]
    · rw [List.find?_cons_of_neg _ (by simp [hak])]
      split
      · exact ih seen k hk
      · rw [List.find?_cons_of_neg _ (by simp [hak])]
        refine ih _ k ?_
        intro hmem
        rcases List.mem_cons.mp hmem with h | h
        · exact hak h.symm
        · exact hk h

/-- C1: for every input table, the metric list returned by `suggest` contains
no two metrics with the same `(label, column)` pair: it is the stage-1-to-4
concatenation deduplicated in emission order, keeping for each key exactly
its first occurrence (`find?` agrees on every key with the undeduplicated
concatenation). -/
theorem suggest_dedups_metrics (t : Table) :
    ((suggest t).1.map metricKey).Nodup
    ∧ (suggest t).1.Sublist (allMetrics t)
    ∧ ∀ k, (suggest t).1.find? (fun m => decide (metricKey m = k)) =
        (allMetrics t).find? (fun m => decide (metricKey m = k)) :=
  ⟨dedupMetrics_nodup_keys (allMetrics t) [],
   dedupMetrics_sublist (allMetrics t) [],
   fun k => dedupMetrics_find? (allMetrics t) [] k (List.not_mem_nil k)⟩

/-- C2: on the numeric column `"Sales_Amount" = [100, 200, 300]` the first
matching numeric rule wins — the revenue rule via keyword `"sales"`, even
though the keyword `"amount"` of a later rule also occurs in the lowercased
name — so `suggest` emits exactly one keyword metric for that column, with
the sum aggregation formatted as `"600"` (absolute value ≥ 100, 0 decimals). -/
theorem sales_amount_first_rule_wins :
    (suggest salesTable).1.filter (fun m => m.column == some "Sales_Amount") =
      [{ label := "Revenu total (Sales_Amount)", value := "600",
         column := some "Sales_Amount",
         description := "Somme totale des montants de la colonne Sales_Amount." }]
    ∧ strContains (strLower "Sales_Amount") "amount" = true
    ∧ (numericRules.drop 1).any (fun r => r.keywords.contains "amount") = true
    ∧ formatNumber (some (seriesSum [(100 : ℚ), 200, 300])) 2 = "600" :=
  ⟨by decide, by decide, by decide, by decide⟩

/-- C4: on the numeric column `"conversion_rate" = [0.1, 0.2, 0.3]` the rate
rule matches and the emitted metric value is the mean formatted by the
percent formatter with one decimal place, `"20.0%"`. -/
theorem conversion_rate_percent_mean :
    (suggest convTable).1.filter (fun m => m.column == some "conversion_rate") =
      [{ label := "Taux moyen (conversion_rate)", value := "20.0%",
         column := some "conversion_rate",
         description := "Taux moyen calculé pour la colonne conversion_rate." }]
    ∧ formatPercent (some (seriesMean [(1 : ℚ)/10, 2/10, 3/10])) 1 = "20.0%" :=
  ⟨by decide, by decide⟩

/-- C6: on the entirely empty table (0 rows, 0 columns), `suggest` returns
exactly the two base metrics — row count and column count, both `"0"`, with
no source column — and an empty list of details. -/
theorem suggest_empty_table :
    suggest emptyTable =
      ([{ label := "Lignes disponibles", value := "0", column := none,
          description := "Nombre total d\u0027enregistrements dans le fichier." },
        { label := "Colonnes disponibles", value := "0", column := none,
          description := "Nombre total de colonnes détectées." }], []) := by
  decide

/-! ### Properties of boolean-mask selection -/

theorem selectByMask_sublist {α : Type} :
    ∀ (l : List α) (mask : List Bool), (selectByMask l mask).Sublist l := by
  intro l
  induction l with
  | nil => intro mask; simp [selectByMask]
  | cons x xs ih =>
    intro mask
    cases mask with
    | nil => simp [selectByMask]
    | cons b bs =>
      cases b with
      | false =>
        exact ((ih bs).cons x :
          List.Sublist (selectByMask (x :: xs) (false :: bs)) (x :: xs))
      | true =>
        exact ((ih bs).cons₂ x :
          List.Sublist (selectByMask (x :: xs) (true :: bs)) (x :: xs))

theorem selectByMask_mem {α : Type} :
    ∀ (l : List α) (mask : List Bool) (p : α),
      p ∈ selectByMask l mask ↔ ∃ j : ℕ, l[j]? = some p ∧ mask[j]? = some true := by
  intro l
  induction l with
  | nil => intro mask p; simp [selectByMask]
  | cons x xs ih =>
    intro mask p
    cases mask with
    | nil => simp [selectByMask]
    | cons b bs =>
      cases b with
      | false =>
        rw [show selectByMask (x :: xs) (false :: bs) = selectByMask xs bs from rfl,
          ih bs p]
        constructor
        · rintro ⟨j, h1, h2⟩
          exact ⟨j + 1, by simpa using h1, by simpa using h2⟩
        · rintro ⟨j, h1, h2⟩
          cases j with
          | zero => simp at h2
          | succ j => exact ⟨j, by simpa using h1, by simpa using h2⟩
      | true =>
        rw [show selectByMask (x :: xs) (true :: bs) = x :: selectByMask xs bs from rfl]
        simp only [List.mem_cons, ih bs p]
        constructor
        · rintro (rfl | ⟨j, h1, h2⟩)
          · exact ⟨0, by simp, by simp⟩
          · exact ⟨j + 1, by simpa using h1, by simpa using h2⟩
        · rintro ⟨j, h1, h2⟩
          cases j with
          | zero => left; simpa using h1.symm
          | succ j => right; exact ⟨j, by simpa using h1, by simpa using h2⟩

theorem indexedRows_getElem? (t : Table) (j : ℕ) (hj : j < t.nRows) :
    (indexedRows t)[j]? = some (j, numRow t j) := by
  simp [indexedRows, List.getElem?_range hj]

theorem indexedRows_map_fst (t : Table) :
    (indexedRows t).map Prod.fst = List.range t.nRows := by
  simp [indexedRows, List.map_map, Function.comp_def]

theorem filledRows_length (t : Table) :
    (filledRows t).length = t.nRows := by
  simp [filledRows]

/-- C7: `detect_outliers` returns an empty result on an empty numeric frame
independently of the model; otherwise the model sees the 0-filled rows and
the result consists exactly of the rows it flags anomalous, carrying the
original (non-filled) values and preserving the original row index order. -/
theorem detectOutliers_spec (t : Table) (model : List (List ℚ) → List Bool) :
    (numericEmpty t → detectOutliers model t = some [])
    ∧ (∀ os, detectOutliers model t = some os →
        (os.map Prod.fst).Pairwise (· < ·)
        ∧ ∀ p ∈ os, p.1 < t.nRows ∧ p.2 = numRow t p.1
            ∧ (model (filledRows t))[p.1]? = some true)
    ∧ (¬ numericEmpty t → (model (filledRows t)).length = t.nRows →
        ∃ os, detectOutliers model t = some os
          ∧ ∀ i, i < t.nRows →
              ((model (filledRows t))[i]? = some true ↔ (i, numRow t i) ∈ os)) := by
  have hmem : ∀ p, p ∈ selectByMask (indexedRows t) (model (filledRows t)) →
      p.1 < t.nRows ∧ p.2 = numRow t p.1
        ∧ (model (filledRows t))[p.1]? = some true := by
    intro p hp
    rcases (selectByMask_mem _ _ p).mp hp with ⟨j, h1, h2⟩
    have hj : j < t.nRows := by
      by_contra hge
      rw [List.getElem?_eq_none] at h1
      · exact Option.noConfusion h1
      · simpa [indexedRows] using Nat.le_of_not_lt hge
    rw [indexedRows_getElem? t j hj] at h1
    cases Option.some.inj h1
    exact ⟨hj, rfl, h2⟩
  refine ⟨?_, ?_, ?_⟩
  · intro he
    simp [detectOutliers, he]
  · intro os hos
    rw [detectOutliers] at hos
    split at hos
    · cases Option.some.inj hos
      exact ⟨List.Pairwise.nil, by intro p hp; cases hp⟩
    · split at hos
      · cases Option.some.inj hos
        constructor
        · have hsub := (selectByMask_sublist (indexedRows t)
            (model (filledRows t))).map Prod.fst
          rw [indexedRows_map_fst] at hsub
          exact List.Pairwise.sublist hsub (List.pairwise_lt_range _)
        · exact hmem
      · exact Option.noConfusion hos
  · intro hne hlen
    refine ⟨selectByMask (indexedRows t) (model (filledRows t)), ?_, ?_⟩
    · rw [detectOutliers, if_neg hne, if_pos]
      simpa [indexedRows] using hlen
    · intro i hi
      constructor
      · intro hpred
        exact (selectByMask_mem _ _ _).mpr ⟨i, indexedRows_getElem? t i hi, hpred⟩
      · intro hval
        rcases (selectByMask_mem _ _ _).mp hval with ⟨j, h1, h2⟩
        have hj : j < t.nRows := by
          by_contra hge
          rw [List.getElem?_eq_none] at h1
          · exact Option.noConfusion h1
          · simpa [indexedRows] using Nat.le_of_not_lt hge
        rw [indexedRows_getElem? t j hj] at h1
        have : j = i := congrArg Prod.fst (Option.some.inj h1)
        rwa [this] at h2

def outlierTable : Table := ⟨2, [("x", .numeric [some 5, none])]⟩

def constTrueModel : List (List ℚ) → List Bool := fun rows => rows.map fun _ => true

theorem detectOutliers_spec_witness :
    ∃ os, detectOutliers constTrueModel outlierTable = some os
      ∧ ∀ i, i < outlierTable.nRows →
          ((constTrueModel (filledRows outlierTable))[i]? = some true ↔
            (i, numRow outlierTable i) ∈ os) :=
  (detectOutliers_spec outlierTable constTrueModel).2.2 (by decide) (by decide)

/-- C8: `cluster` returns one integer label per original row — a sequence
whose length is the row count and whose indices are exactly the original row
indices in order — provided the k-means fit returns one label per input row
(the `fit_predict` contract); on an empty numeric frame it returns the empty
label sequence. -/
theorem cluster_spec (t : Table) (kfit : List (List ℚ) → List ℤ)
    (hk : ∀ d, (kfit d).length = d.length) :
    (numericEmpty t → cluster kfit t = some [])
    ∧ (¬ numericEmpty t →
        ∃ s, cluster kfit t = some s ∧ s.length = t.nRows
          ∧ s.map Prod.fst = List.range t.nRows) := by
  constructor
  · intro he; simp [cluster, he]
  · intro hne
    have hlen : (kfit (filledRows t)).length = t.nRows := by
      rw [hk, filledRows_length]
    refine ⟨(List.range t.nRows).zip (kfit (filledRows t)), ?_, ?_, ?_⟩
    · rw [cluster, if_neg hne, if_pos hlen]
    · rw [List.length_zip, List.length_range, hlen, Nat.min_self]
    · exact List.map_fst_zip _ _ (by rw [hlen, List.length_range])

def clusterTable : Table := ⟨2, [("x", .numeric [some 1, some 2])]⟩

def zeroKfit : List (List ℚ) → List ℤ := fun rows => rows.map fun _ => 0

theorem cluster_spec_witness :
    ∃ s, cluster zeroKfit clusterTable = some s ∧ s.length = clusterTable.nRows
      ∧ s.map Prod.fst = List.range clusterTable.nRows :=
  (cluster_spec clusterTable zeroKfit (fun d => by simp [zeroKfit])).2 (by decide)

/-- C10: a table with at least one row but no numeric-typed columns still
trips the emptiness guard of the agent (a frame with zero columns is `.empty`),
so `cluster` returns the empty label sequence rather than one label per row
and `detect_outliers` returns an empty result for every model. -/
theorem no_numeric_columns_guard (t : Table)
    (model : List (List ℚ) → List Bool) (kfit : List (List ℚ) → List ℤ)
    (_hrows : 0 < t.nRows) (hnone : numericCols t = []) :
    detectOutliers model t = some [] ∧ cluster kfit t = some [] := by
  have he : numericEmpty t := Or.inr hnone
  exact ⟨by simp [detectOutliers, he], by simp [cluster, he]⟩

def noNumTable : Table := ⟨1, [("c", .categorical [some "a"])]⟩

theorem no_numeric_columns_guard_witness :
    detectOutliers constTrueModel noNumTable = some []
    ∧ cluster zeroKfit noNumTable = some [] :=
  no_numeric_columns_guard noNumTable constTrueModel zeroKfit (by decide) (by decide)

/-! ### Properties of the frequency tables (claim C5) -/

theorem valueCounts_perm (l : List String) :
    (valueCounts l).Perm (l.dedup.map fun v => (v, l.count v)) :=
  List.mergeSort_perm _ _

theorem valueCounts_sorted (l : List String) :
    ((valueCounts l).map Prod.snd).Pairwise fun a b => b ≤ a := by
  have h := @List.sorted_mergeSort (String × ℕ)
    (fun a b => decide (b.2 ≤ a.2))
    (fun a b c hab hbc => by
      simp only [decide_eq_true_eq] at *
      exact le_trans hbc hab)
    (fun a b => by
      simp only [Bool.or_eq_true, decide_eq_true_eq]
      exact Nat.le_total b.2 a.2)
    (l.dedup.map fun v => (v, l.count v))
  rw [List.pairwise_map]
  exact h.imp fun hab => of_decide_eq_true hab

theorem valueCounts_count (l : List String) :
    ∀ p ∈ valueCounts l, p.2 = l.count p.1 := by
  intro p hp
  have hp' := (valueCounts_perm l).mem_iff.mp hp
  rcases List.mem_map.mp hp' with ⟨v, _, rfl⟩
  rfl

theorem valueCounts_map_fst_perm (l : List String) :
    ((valueCounts l).map Prod.fst).Perm l.dedup := by
  have h := (valueCounts_perm l).map Prod.fst
  rw [List.map_map] at h
  simpa [Function.comp_def] using h

/-! ### Locating a categorical column -/

theorem mem_categoricalCols_iff (t : Table) (n : String)
    (v : List (Option String)) :
    (n, v) ∈ categoricalCols t ↔ (n, ColData.categorical v) ∈ t.cols := by
  constructor
  · intro h
    rcases List.mem_filterMap.mp h with ⟨c, hc, hfc⟩
    obtain ⟨cn, cd⟩ := c
    cases cd with
    | numeric w => simp at hfc
    | categorical w =>
      simp only [Option.some.injEq, Prod.mk.injEq] at hfc
      obtain ⟨rfl, rfl⟩ := hfc
      exact hc
    | datetime w => simp at hfc
  · intro h
    exact List.mem_filterMap.mpr ⟨(n, ColData.categorical v), h, rfl⟩

theorem cat_names_sublist :
    ∀ (cols : List (String × ColData)),
      (((cols.filterMap fun c =>
          match c.2 with
          | ColData.categorical v => some (c.1, v)
          | _ => none).map Prod.fst)).Sublist (cols.map Prod.fst) := by
  intro cols
  induction cols with
  | nil => simp
  | cons c rest ih =>
    obtain ⟨cn, cd⟩ := c
    cases cd with
    | numeric w =>
      simpa [List.filterMap_cons] using ih.cons cn
    | categorical w =>
      simpa [List.filterMap_cons] using ih.cons₂ cn
    | datetime w =>
      simpa [List.filterMap_cons] using ih.cons cn

theorem categoricalCols_names_nodup (t : Table) (h : (t.cols.map Prod.fst).Nodup) :
    ((categoricalCols t).map Prod.fst).Nodup :=
  h.sublist (cat_names_sublist t.cols)

theorem eq_of_mem_of_nodup_keys {α β : Type} :
    ∀ (l : List (α × β)), (l.map Prod.fst).Nodup →
      ∀ p q, p ∈ l → q ∈ l → p.1 = q.1 → p = q := by
  intro l
  induction l with
  | nil => intro _ p q hp _ _; cases hp
  | cons a rest ih =>
    intro hnd p q hp hq hfst
    rw [List.map_cons, List.nodup_cons] at hnd
    rcases List.mem_cons.mp hp with rfl | hp' <;>
      rcases List.mem_cons.mp hq with rfl | hq'
    · rfl
    · exact absurd (hfst ▸ List.mem_map_of_mem Prod.fst hq') hnd.1
    · exact absurd (hfst ▸ List.mem_map_of_mem Prod.fst hp') (by
        intro hc; exact hnd.1 (by simpa [hfst] using hc))
    · exact ih hnd.2 p q hp' hq' hfst

theorem string_append_left_cancel {s a b : String} (h : s ++ a = s ++ b) :
    a = b := by
  have hd : s.data ++ a.data = s.data ++ b.data := by
    have := congrArg String.data h
    simpa [String.data_append] using this
  cases a; cases b
  exact congrArg String.mk (List.append_cancel_left hd)

/-- C5: for every categorical column of a well-formed table, `suggest`
produces a detail titled `"Répartition de {column}"` iff its count
of distinct non-missing values is between 1 and 25 inclusive; any such
detail's frequency table pairs each category value with its integer
occurrence count (one row per distinct value) sorted by descending
occurrence. -/
theorem top_categories_detail_iff (t : Table) (name : String)
    (vals : List (Option String)) (hwf : t.WF)
    (hmem : (name, vals) ∈ categoricalCols t) :
    ((∃ d ∈ (suggest t).2, d.title = "Répartition de " ++ name) ↔
      (1 ≤ (vals.filterMap id).dedup.length ∧ (vals.filterMap id).dedup.length ≤ 25))
    ∧ (∀ d ∈ (suggest t).2, d.title = "Répartition de " ++ name →
        d.dataframe = valueCounts (vals.filterMap id)
        ∧ ((d.dataframe.map Prod.snd).Pairwise fun a b => b ≤ a)
        ∧ (∀ p ∈ d.dataframe, p.2 = (vals.filterMap id).count p.1)
        ∧ ((d.dataframe.map Prod.fst).Perm (vals.filterMap id).dedup)) := by
  have hne : categoricalCols t ≠ [] := List.ne_nil_of_mem hmem
  have hchar : ∀ d ∈ (suggest t).2, d.title = "Répartition de " ++ name →
      d = { title := "Répartition de " ++ name
            dataframe := valueCounts (vals.filterMap id)
            description :=
              some "Top catégories pour aider à identifier les segments dominants." }
      ∧ 1 ≤ (vals.filterMap id).dedup.length
      ∧ (vals.filterMap id).dedup.length ≤ 25 := by
    intro d hd htitle
    have hd' : d ∈ topCategoriesDetails t := hd
    rw [topCategoriesDetails] at hd'
    split at hd'
    · cases hd'
    · rcases List.mem_flatMap.mp hd' with ⟨⟨cn, cv⟩, hc, hdc0⟩
      have hdc : d ∈ categoricalColDetails cn cv := hdc0
      rw [categoricalColDetails] at hdc
      split at hdc
      · cases hdc
      · rename_i hcond
        rw [List.mem_singleton] at hdc
        subst hdc
        have hname : cn = name := string_append_left_cancel htitle
        subst hname
        have hceq : ((cn, cv) : String × List (Option String)) = (cn, vals) :=
          eq_of_mem_of_nodup_keys (categoricalCols t)
            (categoricalCols_names_nodup t hwf.2) (cn, cv) (cn, vals) hc hmem rfl
        injection hceq with _ hcv
        subst hcv
        refine ⟨rfl, ?_, ?_⟩ <;> omega
  refine ⟨⟨?_, ?_⟩, ?_⟩
  · rintro ⟨d, hd, htitle⟩
    exact (hchar d hd htitle).2
  · rintro ⟨h1, h25⟩
    have hser : vals.filterMap id ≠ [] := by
      intro hnil
      rw [hnil] at h1
      simp at h1
    have hrows : t.nRows ≠ 0 := by
      have hcols := (mem_categoricalCols_iff t name vals).mp hmem
      have hlen := hwf.1 _ hcols
      simp only [ColData.size] at hlen
      intro h0
      rw [h0] at hlen
      have : vals = [] := List.eq_nil_of_length_eq_zero hlen
      rw [this] at hser
      exact hser rfl
    refine ⟨{ title := "Répartition de " ++ name
              dataframe := valueCounts (vals.filterMap id)
              description :=
                some "Top catégories pour aider à identifier les segments dominants." },
      ?_, rfl⟩
    show _ ∈ topCategoriesDetails t
    rw [topCategoriesDetails, if_neg (by push_neg; exact ⟨hrows, hne⟩)]
    refine List.mem_flatMap.mpr ⟨(name, vals), hmem, ?_⟩
    show _ ∈ categoricalColDetails name vals
    rw [categoricalColDetails, if_neg (by omega)]
    exact List.mem_singleton.mpr rfl
  · intro d hd htitle
    obtain ⟨hdeq, -, -⟩ := hchar d hd htitle
    rw [hdeq]
    exact ⟨rfl, valueCounts_sorted _, valueCounts_count _, valueCounts_map_fst_perm _⟩

def cat25Table : Table :=
  ⟨25, [("cat", .categorical ((List.range 25).map fun i => some (Nat.repr i)))]⟩

def cat30Table : Table :=
  ⟨30, [("cat", .categorical ((List.range 30).map fun i => some (Nat.repr i)))]⟩

theorem top_categories_detail_iff_witness :
    (∃ d ∈ (suggest cat25Table).2, d.title = "Répartition de " ++ "cat")
    ∧ ¬ (∃ d ∈ (suggest cat30Table).2, d.title = "Répartition de " ++ "cat") :=
  ⟨(top_categories_detail_iff cat25Table "cat"
      ((List.range 25).map fun i => some (Nat.repr i)) (by decide) (by decide)).1.mpr
      (by decide),
   fun h => absurd
     ((top_categories_detail_iff cat30Table "cat"
        ((List.range 30).map fun i => some (Nat.repr i)) (by decide) (by decide)).1.mp h)
     (by decide)⟩

/-! ### Character-level properties of the formatters (claim C3) -/

def digitCharList : List Char :=
  ['0', '1', '2', '3', '4', '5', '6', '7', '8', '9']

theorem mem_natDigitsAux_lt :
    ∀ (fuel n : ℕ), ∀ d ∈ natDigitsAux fuel n, d < 10 := by
  intro fuel
  induction fuel with
  | zero => intro n d hd; simp [natDigitsAux] at hd
  | succ f ih =>
    intro n d hd
    cases n with
    | zero => simp [natDigitsAux] at hd
    | succ m =>
      rw [show natDigitsAux (f + 1) (m + 1)
          = ((m + 1) % 10) :: natDigitsAux f ((m + 1) / 10) from rfl] at hd
      rcases List.mem_cons.mp hd with rfl | hd'
      · exact Nat.mod_lt _ (by norm_num)
      · exact ih _ d hd'

theorem digitChar_mem_digitCharList {d : ℕ} (hd : d < 10) :
    Nat.digitChar d ∈ digitCharList := by
  interval_cases d <;> decide

theorem mem_lsbChars (n : ℕ) : ∀ c ∈ lsbChars n, c ∈ digitCharList := by
  intro c hc
  rw [lsbChars] at hc
  split at hc
  · rw [List.mem_singleton] at hc; subst hc; decide
  · rcases List.mem_map.mp hc with ⟨d, hd, rfl⟩
    exact digitChar_mem_digitCharList (mem_natDigitsAux_lt n n d hd)

theorem mem_group3 : ∀ (l : List Char) (c : Char), c ∈ group3 l → c ∈ l ∨ c = ','
  | [], c, hc => by simp [group3] at hc
  | [a], c, hc => Or.inl (by simpa [group3] using hc)
  | [a, b], c, hc => Or.inl (by simpa [group3] using hc)
  | [a, b, d], c, hc => Or.inl (by simpa [group3] using hc)
  | a :: b :: d :: e :: rest, c, hc => by
    rw [show group3 (a :: b :: d :: e :: rest)
        = a :: b :: d :: ',' :: group3 (e :: rest) from rfl] at hc
    rcases List.mem_cons.mp hc with rfl | hc
    · exact Or.inl (by simp)
    rcases List.mem_cons.mp hc with rfl | hc
    · exact Or.inl (by simp)
    rcases List.mem_cons.mp hc with rfl | hc
    · exact Or.inl (by simp)
    rcases List.mem_cons.mp hc with rfl | hc
    · exact Or.inr rfl
    rcases mem_group3 (e :: rest) c hc with h | h
    · exact Or.inl (by simp only [List.mem_cons] at h ⊢; tauto)
    · exact Or.inr h

theorem mem_groupedIntChars (n : ℕ) :
    ∀ c ∈ groupedIntChars n, c ∈ digitCharList ∨ c = ',' := by
  intro c hc
  rw [groupedIntChars, List.mem_reverse] at hc
  rcases mem_group3 _ c hc with h | h
  · exact Or.inl (mem_lsbChars n c h)
  · exact Or.inr h

theorem mem_fracChars (fp d : ℕ) : ∀ c ∈ fracChars fp d, c ∈ digitCharList := by
  intro c hc
  rw [fracChars] at hc
  rcases List.mem_append.mp hc with h | h
  · rw [List.eq_of_mem_replicate h]; decide
  · rw [List.mem_reverse] at h
    rcases List.mem_map.mp h with ⟨dg, hdg, rfl⟩
    exact digitChar_mem_digitCharList (mem_natDigitsAux_lt _ _ dg hdg)

theorem natDigitsAux_length_le :
    ∀ (fuel n d : ℕ), n < 10 ^ d → (natDigitsAux fuel n).length ≤ d := by
  intro fuel
  induction fuel with
  | zero => intro n d _; simp [natDigitsAux]
  | succ f ih =>
    intro n d hn
    cases n with
    | zero => simp [natDigitsAux]
    | succ m =>
      cases d with
      | zero => simp at hn
      | succ d' =>
        rw [show natDigitsAux (f + 1) (m + 1)
            = ((m + 1) % 10) :: natDigitsAux f ((m + 1) / 10) from rfl]
        rw [List.length_cons]
        have hdiv : (m + 1) / 10 < 10 ^ d' := by
          rw [Nat.div_lt_iff_lt_mul (by norm_num : (0 : ℕ) < 10)]
          rw [pow_succ] at hn
          exact hn
        exact Nat.succ_le_succ (ih _ _ hdiv)

theorem fracChars_length (fp d : ℕ) (h : fp < 10 ^ d) :
    (fracChars fp d).length = d := by
  have hlen : (natDigitsLSB fp).length ≤ d := natDigitsAux_length_le fp fp d h
  rw [fracChars, List.length_append, List.length_replicate, List.length_reverse,
    List.length_map]
  omega

theorem mem_pyReplaceChar (s : List Char) (a b c : Char) :
    c ∈ pyReplaceChar s a b → c = b ∨ (c ∈ s ∧ c ≠ a) := by
  intro hc
  rcases List.mem_map.mp hc with ⟨x, hx, hcx⟩
  by_cases hxa : x = a
  · rw [if_pos hxa] at hcx
    exact Or.inl hcx.symm
  · rw [if_neg hxa] at hcx
    subst hcx
    exact Or.inr ⟨hx, hxa⟩

theorem mem_formatFixedChars0 (v : ℚ) :
    ∀ c ∈ formatFixedChars true v 0, c ∈ digitCharList ∨ c = ',' ∨ c = '-' := by
  intro c hc
  rw [show formatFixedChars true v 0
      = (if v < 0 then ['-'] else [])
        ++ groupedIntChars ((roundHalfEven (|v| * 10 ^ 0)).toNat / 10 ^ 0)
        ++ [] from by simp [formatFixedChars]] at hc
  rw [List.append_nil] at hc
  rcases List.mem_append.mp hc with h | h
  · split at h
    · rw [List.mem_singleton] at h; exact Or.inr (Or.inr h)
    · cases h
  · rcases mem_groupedIntChars _ c h with h' | h'
    · exact Or.inl h'
    · exact Or.inr (Or.inl h')

theorem formatFixedChars_decompose (v : ℚ) (d : ℕ) (hd : d ≠ 0) :
    ∃ pre : List Char,
      formatFixedChars true v d
        = pre ++ '.' :: fracChars ((roundHalfEven (|v| * 10 ^ d)).toNat % 10 ^ d) d
      ∧ ∀ c ∈ pre, c ∈ digitCharList ∨ c = ',' ∨ c = '-' := by
  refine ⟨(if v < 0 then ['-'] else [])
      ++ groupedIntChars ((roundHalfEven (|v| * 10 ^ d)).toNat / 10 ^ d), ?_, ?_⟩
  · simp [formatFixedChars, hd, List.append_assoc]
  · intro c hc
    rcases List.mem_append.mp hc with h | h
    · split at h
      · rw [List.mem_singleton] at h; exact Or.inr (Or.inr h)
      · cases h
    · rcases mem_groupedIntChars _ c h with h' | h'
      · exact Or.inl h'
      · exact Or.inr (Or.inl h')

/-- C3: the default numeric formatter maps a missing value to `"N/A"` (and so
does the percent formatter — formatting a missing value never fails); a value
of absolute value ≥ 100 renders with zero decimal places (no `'.'` in the
output) whatever decimal count is requested; any other value renders, at the
default 2 requested decimals, with exactly two digits after the single
decimal point; the output never contains the `','` group separator — it is
replaced by the narrow no-break space U+202F, as the concrete grouped
rendering of 1234567 shows. -/
theorem format_number_contract :
    (∀ d, formatNumber none d = "N/A")
    ∧ (∀ d, formatPercent none d = "N/A")
    ∧ (∀ (v : ℚ) (d : ℕ), 100 ≤ |v| → '.' ∉ (formatNumber (some v) d).toList)
    ∧ (∀ v : ℚ, |v| < 100 → ∃ a b : String,
        formatNumber (some v) 2 = a ++ "." ++ b ∧ b.length = 2
          ∧ '.' ∉ a.toList ∧ '.' ∉ b.toList)
    ∧ (∀ (v : ℚ) (d : ℕ), ',' ∉ (formatNumber (some v) d).toList)
    ∧ formatNumber (some 1234567) 2 = "1\u202F234\u202F567" := by
  refine ⟨fun d => rfl, fun d => rfl, ?_, ?_, ?_, by decide⟩
  · intro v d hv hc
    rw [show formatNumber (some v) d
        = ⟨pyReplaceChar (if 100 ≤ |v| then formatFixedChars true v 0
            else formatFixedChars true v d) ',' nnbsp⟩ from rfl] at hc
    rw [if_pos hv] at hc
    rcases mem_pyReplaceChar _ _ _ _ hc with h | ⟨h, _⟩
    · exact absurd h (by decide)
    · rcases mem_formatFixedChars0 v '.' h with h' | h' | h' <;> revert h' <;> decide
  · intro v hv
    have hv' : ¬ 100 ≤ |v| := not_le.mpr hv
    rcases formatFixedChars_decompose v 2 (by norm_num) with ⟨pre, heq, hpre⟩
    refine ⟨⟨pyReplaceChar pre ',' nnbsp⟩,
      ⟨pyReplaceChar
        (fracChars ((roundHalfEven (|v| * 10 ^ 2)).toNat % 10 ^ 2) 2) ',' nnbsp⟩,
      ?_, ?_, ?_, ?_⟩
    · rw [show formatNumber (some v) 2
          = ⟨pyReplaceChar (if 100 ≤ |v| then formatFixedChars true v 0
              else formatFixedChars true v 2) ',' nnbsp⟩ from rfl]
      rw [if_neg hv', heq]
      have hstr : (⟨pyReplaceChar pre ',' nnbsp⟩ : String) ++ "." ++
          ⟨pyReplaceChar
            (fracChars ((roundHalfEven (|v| * 10 ^ 2)).toNat % 10 ^ 2) 2) ',' nnbsp⟩
          = ⟨(pyReplaceChar pre ',' nnbsp ++ ['.']) ++
              pyReplaceChar
                (fracChars ((roundHalfEven (|v| * 10 ^ 2)).toNat % 10 ^ 2) 2) ',' nnbsp⟩ := rfl
      rw [hstr]
      refine congrArg String.mk ?_
      simp only [pyReplaceChar, List.map_append, List.map_cons, List.append_assoc,
        List.singleton_append]
      rw [show (if ('.' : Char) = ',' then nnbsp else '.') = '.' from by decide]
    · show (pyReplaceChar _ ',' nnbsp).length = 2
      rw [pyReplaceChar, List.length_map]
      exact fracChars_length _ 2 (Nat.mod_lt _ (by norm_num))
    · intro hc
      rcases mem_pyReplaceChar _ _ _ _ hc with h | ⟨h, _⟩
      · exact absurd h (by decide)
      · rcases hpre '.' h with h' | h' | h' <;> revert h' <;> decide
    · intro hc
      rcases mem_pyReplaceChar _ _ _ _ hc with h | ⟨h, _⟩
      · exact absurd h (by decide)
      · exact absurd (mem_fracChars _ _ '.' h) (by decide)
  · intro v d hc
    rw [show formatNumber (some v) d
        = ⟨pyReplaceChar (if 100 ≤ |v| then formatFixedChars true v 0
            else formatFixedChars true v d) ',' nnbsp⟩ from rfl] at hc
    rcases mem_pyReplaceChar _ _ _ _ hc with h | ⟨_, h⟩
    · exact absurd h (by decide)
    · exact h rfl

theorem format_number_contract_witness :
    ('.' ∉ (formatNumber (some 600) 2).toList)
    ∧ (∃ a b : String, formatNumber (some (3/2)) 2 = a ++ "." ++ b
        ∧ b.length = 2 ∧ '.' ∉ a.toList ∧ '.' ∉ b.toList) :=
  ⟨format_number_contract.2.2.1 600 2 (by norm_num),
   format_number_contract.2.2.2.1 (3/2)
     (by rw [abs_of_nonneg (by norm_num : (0 : ℚ) ≤ 3/2)]; norm_num)⟩

/-- C9: no core operation mutates the table held by the caller.  On the heap,
every pandas transformation the four operations perform (column selection,
missing-value fill, counts construction) allocates a fresh frame, and the
only in-place writes target those fresh allocations, so the caller
reference still holds the original table after every invocation. -/
theorem core_ops_no_mutation (h : Heap) (r : ℕ)
    (model : List (List ℚ) → List Bool) (kfit : List (List ℚ) → List ℤ)
    (hr : r < h.length) :
    (suggestH h r).1[r]? = h[r]?
    ∧ (detectOutliersH model h r).1[r]? = h[r]?
    ∧ (clusterH kfit h r).1[r]? = h[r]?
    ∧ (corrHeatmapH h r).1[r]? = h[r]? :=
  ⟨(heapExtends_suggestHeap h (hGetTab h r)).2 r hr,
   (heapExtends_detectOutliersHeap model h (hGetTab h r)).2 r hr,
   (heapExtends_clusterHeap kfit h (hGetTab h r)).2 r hr,
   heapExtends_trans (heapExtends_alloc h _) (heapExtends_alloc _ _) |>.2 r hr⟩

theorem core_ops_no_mutation_witness :
    (suggestH [PdObj.tab salesTable] 0).1[0]? = [PdObj.tab salesTable][0]?
    ∧ (detectOutliersH constTrueModel [PdObj.tab salesTable] 0).1[0]? =
        [PdObj.tab salesTable][0]?
    ∧ (clusterH zeroKfit [PdObj.tab salesTable] 0).1[0]? = [PdObj.tab salesTable][0]?
    ∧ (corrHeatmapH [PdObj.tab salesTable] 0).1[0]? = [PdObj.tab salesTable][0]? :=
  core_ops_no_mutation [PdObj.tab salesTable] 0 constTrueModel zeroKfit
    (by simp)

end DatasetPreviewer
